import Mathlib

/-!
Verification development for the EfficientNet architecture builder
(`src/efficientnet/efficientnet_pred.py`).

Python floats are modelled as rationals (`ℚ`); all quantities the claims
touch are produced by exact closed-form arithmetic on small values, so the
rational model is faithful to the source formulas.  Python `int(x)` is
truncation toward zero; every place the source applies it the argument is
nonnegative, where truncation coincides with `Int.toNat ∘ Int.floor`.
Python `//` on nonnegative integers coincides with `Nat` division.
-/

namespace EffNet

/-- Function `round_filters` from `EfficientNet` (lines 311-319): scales a filter
count by `width_coefficient`, rounds to a multiple of `divisor` (never
below `divisor`), and bumps by one `divisor` when the rounded value fell
below 90% of the scaled value.  `int(filters + divisor / 2)` is modelled
by `(Int.floor _).toNat`, faithful for the nonnegative arguments the
builder supplies; `// divisor * divisor` is `Nat` division. -/
def round_filters (filters : ℕ) (width_coefficient : ℚ) (divisor : ℕ) : ℕ :=
  let s : ℚ := filters * width_coefficient
  let new_filters : ℕ := max divisor ((⌊s + divisor / 2⌋).toNat / divisor * divisor)
  if (new_filters : ℚ) < 9 / 10 * s then new_filters + divisor else new_filters

/-- Function `round_repeats` from `EfficientNet` (lines 321-324):
`int(math.ceil(depth_coefficient * repeats))`, an integer. -/
def round_repeats (depth_coefficient : ℚ) (repeats : ℕ) : ℤ :=
  ⌈depth_coefficient * repeats⌉

/-- One entry of the `blocks_args` stage table (a Python dict such as the
seven literals of `DEFAULT_BLOCKS_ARGS`, lines 91-106).  `se_rat` models
the source key `se_ratio` and `expand_rat` models `expand_ratio`. -/
structure BlockArgs where
  kernel_size : ℕ
  repeats : ℕ
  filters_in : ℕ
  filters_out : ℕ
  expand_rat : ℕ
  id_skip : Bool
  strides : ℕ
  se_rat : ℚ
deriving DecidableEq, Repr

/-- The seven-stage table `DEFAULT_BLOCKS_ARGS` (lines 91-106). -/
def DEFAULT_BLOCKS_ARGS : List BlockArgs :=
  [⟨3, 1, 32, 16, 1, true, 1, 1/4⟩,
   ⟨3, 2, 16, 24, 6, true, 2, 1/4⟩,
   ⟨5, 2, 24, 40, 6, true, 2, 1/4⟩,
   ⟨3, 3, 40, 80, 6, true, 2, 1/4⟩,
   ⟨5, 3, 80, 112, 6, true, 1, 1/4⟩,
   ⟨5, 4, 112, 192, 6, true, 2, 1/4⟩,
   ⟨3, 1, 192, 320, 6, true, 1, 1/4⟩]

/-- The parameters the assembler loop (lines 338-353) passes to one call
of `block`: the already-scaled filter counts, the per-block stochastic
depth rate `drop_connect_rate * b / blocks`, and the within-stage /
whole-network position. -/
structure BlockCall where
  drop_rate : ℚ
  filters_in : ℕ
  filters_out : ℕ
  kernel_size : ℕ
  strides : ℕ
  expand_rat : ℕ
  se_rat : ℚ
  id_skip : Bool
  stage : ℕ
  idxInStage : ℕ
deriving DecidableEq, Repr

/-- The state of one stage dict after the assembler loop finished with
it: `repeats` was popped (line 346), `filters_in` / `filters_out` were
overwritten with scaled values (lines 343-344), and when the stage ran
more than one block the `j > 0` branch (lines 348-350) left
`strides = 1` and `filters_in = filters_out` behind. -/
structure StageState where
  kernel_size : ℕ
  repeats : Option ℕ
  filters_in : ℕ
  filters_out : ℕ
  expand_rat : ℕ
  id_skip : Bool
  strides : ℕ
  se_rat : ℚ
deriving DecidableEq, Repr

/-- The view of a stage dict before the loop touches it. -/
def BlockArgs.toState (a : BlockArgs) : StageState :=
  ⟨a.kernel_size, some a.repeats, a.filters_in, a.filters_out,
   a.expand_rat, a.id_skip, a.strides, a.se_rat⟩

/-- The `reps` block calls one stage emits (the inner loop, lines
346-353), starting at global block index `b0`.  Iteration `j > 0` sees
the mutations `strides = 1`, `filters_in = filters_out` of lines
348-350. -/
def stageCalls (dcr blocksQ : ℚ) (b0 i : ℕ) (a : BlockArgs)
    (fin fout reps : ℕ) : List BlockCall :=
  (List.range reps).map fun j =>
    ⟨dcr * (((b0 + j : ℕ) : ℚ)) / blocksQ,
     if 0 < j then fout else fin, fout,
     a.kernel_size,
     if 0 < j then 1 else a.strides,
     a.expand_rat, a.se_rat, a.id_skip, i, j⟩

/-- The stage loop of `EfficientNet` (lines 340-353), threading the
global block counter `b` and the stage index `i`; returns the emitted
block calls together with the final state of each (copied) stage dict.
`rf` is the `round_filters` closure, `rr` the (clamped) `round_repeats`
closure, `blocksQ` the float `blocks` of line 339. -/
def buildGo (dcr blocksQ : ℚ) (rf rr : ℕ → ℕ) :
    ℕ → ℕ → List BlockArgs → List BlockCall × List StageState
  | _, _, [] => ([], [])
  | b, i, a :: rest =>
    let fin := rf a.filters_in
    let fout := rf a.filters_out
    let reps := rr a.repeats
    let tail := buildGo dcr blocksQ rf rr (b + reps) (i + 1) rest
    (stageCalls dcr blocksQ b i a fin fout reps ++ tail.1,
     ⟨a.kernel_size, none,
      if 1 < reps then fout else fin, fout,
      a.expand_rat, a.id_skip,
      if 1 < reps then 1 else a.strides, a.se_rat⟩ :: tail.2)

/-- The list of block calls `EfficientNet` makes (lines 338-353).
`blocks` (line 339) is the sum of the raw `repeats` entries of the
table — `round_repeats` is NOT applied there.  `Int.toNat` on
`round_repeats` models Python `range(n)` being empty for `n ≤ 0`. -/
def buildCalls (wc dc dcr : ℚ) (div : ℕ) (table : List BlockArgs) :
    List BlockCall :=
  (buildGo dcr (((table.map BlockArgs.repeats).sum : ℕ) : ℚ)
    (fun f => round_filters f wc div)
    (fun r => (round_repeats dc r).toNat) 0 0 table).1

/-- The full assembler pass over the stage table, as seen from the
caller of `EfficientNet`.  Line 336 rebinds the local name
`blocks_args` to a deep copy before the loop's in-place dict updates
(lines 343-350), so the loop's mutations land on the copy: the first
result component is the emitted block calls, the second is the list the
caller still holds, and the third is the final state of the copied
stage dicts. -/
def assembleBody (wc dc dcr : ℚ) (div : ℕ) (caller : List BlockArgs) :
    List BlockCall × List BlockArgs × List StageState :=
  let copied := caller
  let r := buildGo dcr (((copied.map BlockArgs.repeats).sum : ℕ) : ℚ)
    (fun f => round_filters f wc div)
    (fun r => (round_repeats dc r).toNat) 0 0 copied
  (r.1, caller, r.2)

/-- The `weights` argument of `EfficientNet` (line 255): the string
`imagenet`, Python `None` (`randomInit`), or a file path whose
existence on disk (`os.path.exists`, line 283) is the recorded flag. -/
inductive WeightsArg where
  | imagenet
  | randomInit
  | filePath (existsOnDisk : Bool)
deriving DecidableEq, Repr

/-- The two `ValueError`s `EfficientNet` itself raises (lines 283-291):
an unrecognised `weights` argument, and `num_classes != 1000` together
with `weights='imagenet'` and `include_top=True`. -/
inductive BuildError where
  | invalidWeights
  | invalidNumClasses
deriving DecidableEq, Repr

/-- The argument validation at the top of `EfficientNet`
(lines 283-291), performed before any layer is constructed. -/
def validateArgs (w : WeightsArg) (include_top : Bool) (num_classes : ℕ) :
    Except BuildError Unit :=
  if ¬(w = .imagenet ∨ w = .randomInit ∨ w = .filePath true) then
    .error .invalidWeights
  else if w = .imagenet ∧ include_top = true ∧ num_classes ≠ 1000 then
    .error .invalidNumClasses
  else .ok ()

/-- Function `EfficientNet` reduced to what the claims observe: validate the
arguments (lines 283-291), then assemble the body blocks
(lines 338-353).  An error return means the function raised before
constructing any layer; an `ok` return carries the block calls made. -/
def EfficientNet (wc dc dcr : ℚ) (div : ℕ) (table : List BlockArgs)
    (w : WeightsArg) (include_top : Bool) (num_classes : ℕ) :
    Except BuildError (List BlockCall) :=
  match validateArgs w include_top num_classes with
  | .error e => .error e
  | .ok _ => .ok (buildCalls wc dc dcr div table)

/-- Function `correct_pad` (lines 131-154).  The function reads the two spatial
dimensions of the incoming tensor (`None` for a dynamic shape, tested
on the first of the two entries, line 146) and receives the kernel
size already broadcast to a pair.  Pads are integers (`ℤ`) exactly as
in Python, where `correct - adjust` may in principle be negative. -/
def correct_pad (input_size : Option (ℕ × ℕ)) (kernel_size : ℕ × ℕ) :
    (ℤ × ℤ) × (ℤ × ℤ) :=
  let adjust : ℤ × ℤ :=
    match input_size with
    | none => (1, 1)
    | some s => (1 - (s.1 : ℤ) % 2, 1 - (s.2 : ℤ) % 2)
  let correct : ℤ × ℤ := ((kernel_size.1 : ℤ) / 2, (kernel_size.2 : ℤ) / 2)
  ((correct.1 - adjust.1, correct.1), (correct.2 - adjust.2, correct.2))

/-- Activation argument of a Keras `Conv2D` call in `block`: the SE
reduce conv passes `activation_fn`, the SE expand conv passes
`'sigmoid'`, and every other conv passes none (a separate `Activation`
layer follows instead). -/
inductive ActKind where
  | actNone
  | actFn
  | sigmoid
deriving DecidableEq, Repr

/-- Symbolic Keras tensor expressions: exactly the layer applications
`block` (lines 175-249) can emit, under the default TensorFlow
`channels_last` configuration (so `bn_axis = -1`, the `Reshape` target
is `(1, 1, filters)`, and the Theano-only broadcast `Lambda` of lines
233-237 is dead code).  Layer name strings are dropped; they carry no
structure the claims mention. -/
inductive Tensor where
  | input
  | conv2d (filters : ℕ) (kernel : ℕ) (activation : ActKind) (x : Tensor)
  | bn (x : Tensor)
  | act (x : Tensor)
  | zeroPad (rows cols : ℤ × ℤ) (x : Tensor)
  | dwconv (kernel strides : ℕ) (samePad : Bool) (x : Tensor)
  | gap (x : Tensor)
  | reshape (channels : ℕ) (x : Tensor)
  | mul (x se : Tensor)
  | dropoutWholeBlock (rate : ℚ) (x : Tensor)
  | add (x y : Tensor)
deriving DecidableEq, Repr

/-- The reduced-channel count of the SE gate (line 220):
`max(1, int(filters_in * se_ratio))`, `int` truncating (equal to the
floor for the nonnegative product). -/
def se_filters (filters_in : ℕ) (se_rat : ℚ) : ℕ :=
  max 1 (⌊(filters_in : ℚ) * se_rat⌋).toNat

/-- The Squeeze-and-Excitation phase of `block` (lines 219-238):
applied only for `0 < se_ratio <= 1`; squeeze, reshape, reduce conv to
`se_filters` channels with the block activation, expand conv back to
`filters` channels with sigmoid, multiply onto the main path. -/
def sePhase (filters_in filters : ℕ) (se_rat : ℚ) (x : Tensor) : Tensor :=
  if 0 < se_rat ∧ se_rat ≤ 1 then
    .mul x (.conv2d filters 1 .sigmoid
      (.conv2d (se_filters filters_in se_rat) 1 .actFn
        (.reshape filters (.gap x))))
  else x

/-- Function `block` up to and including the projection conv and its batch norm
(lines 194-243): expansion (skipped when `expand_ratio == 1`),
optional stride-2 pre-padding, depthwise conv, SE phase, projection.
`spatial` is the static spatial shape of the tensor entering the
depthwise conv (`K.int_shape`, used only when `strides == 2`). -/
def blockBody (inputs : Tensor) (spatial : Option (ℕ × ℕ))
    (filters_in filters_out kernel_size strides expand_rat : ℕ)
    (se_rat : ℚ) : Tensor :=
  let filters := filters_in * expand_rat
  let x0 := if expand_rat ≠ 1 then
      Tensor.act (.bn (.conv2d filters 1 .actNone inputs))
    else inputs
  let x1 := if strides = 2 then
      Tensor.zeroPad (correct_pad spatial (kernel_size, kernel_size)).1
        (correct_pad spatial (kernel_size, kernel_size)).2 x0
    else x0
  let x2 := Tensor.act (.bn (.dwconv kernel_size strides (strides ≠ 2) x1))
  let x3 := sePhase filters_in filters se_rat x2
  Tensor.bn (.conv2d filters_out 1 .actNone x3)

/-- The full mobile inverted residual block (lines 175-249): the body,
then — only when `id_skip` holds with `strides == 1` and
`filters_in == filters_out` — a whole-block dropout (only if
`drop_rate > 0`) and the residual add of the block input. -/
def block (inputs : Tensor) (spatial : Option (ℕ × ℕ)) (drop_rate : ℚ)
    (filters_in filters_out kernel_size strides expand_rat : ℕ)
    (se_rat : ℚ) (id_skip : Bool) : Tensor :=
  let x := blockBody inputs spatial filters_in filters_out kernel_size
    strides expand_rat se_rat
  if id_skip = true ∧ strides = 1 ∧ filters_in = filters_out then
    .add (if 0 < drop_rate then .dropoutWholeBlock drop_rate x else x) inputs
  else x

/-- Transcription of the rounding formula as the specification words it:
`max(depth_divisor, floor((filters*wc + depth_divisor/2) / depth_divisor)
* depth_divisor)`, with the same 90% correction.  Used to compare the
spec's formula against the source's `round_filters`. -/
def round_filters_claim (filters : ℕ) (width_coefficient : ℚ) (divisor : ℕ) : ℕ :=
  let s : ℚ := filters * width_coefficient
  let nf : ℕ := max divisor ((⌊(s + divisor / 2) / divisor⌋).toNat * divisor)
  if (nf : ℚ) < 9 / 10 * s then nf + divisor else nf

/-- Statement that `r` is a multiple of `d` at minimal distance from `f`
among all multiples of `d` — the "nearest multiple" wording of the
claims. -/
def isNearestMultiple (d f r : ℕ) : Prop :=
  d ∣ r ∧ ∀ m : ℕ, d ∣ m → ((r : ℤ) - f).natAbs ≤ ((m : ℤ) - f).natAbs

/-- One-stage table used to exercise the assembler on concrete input:
two repeats, 8 channels in and out, stride 1. -/
def oneStageTable : List BlockArgs := [⟨3, 2, 8, 8, 1, true, 1, 1/4⟩]

/-- One-stage table whose `filters_in = 11` is moved by `round_filters`
even at `width_coefficient = 1`. -/
def stageTable11 : List BlockArgs := [⟨3, 1, 11, 16, 1, true, 2, 1/4⟩]

/-- All-zero stage entry, used only as the out-of-range default of
`List.getD` when reading a stage blueprint back from its index. -/
def zeroArgs : BlockArgs := ⟨0, 0, 0, 0, 0, false, 0, 0⟩

end EffNet

namespace EffNet

/-- C3: for every integer `repeats >= 1` and `depth_coefficient > 0`,
`round_repeats` returns `ceil(depth_coefficient * repeats)`, which is
always `>= 1`; and `round_repeats(r, 1.0) = r` for every positive
integer `r`. -/
theorem round_repeats_spec (dc : ℚ) (r : ℕ) (hr : 1 ≤ r) (hdc : 0 < dc) :
    round_repeats dc r = ⌈dc * (r : ℚ)⌉ ∧
    1 ≤ round_repeats dc r ∧
    round_repeats 1 r = (r : ℤ) := by
  refine ⟨rfl, ?_, ?_⟩
  · have hrq : (0 : ℚ) < r := by exact_mod_cast Nat.lt_of_lt_of_le Nat.zero_lt_one hr
    have hpos : 0 < ⌈dc * (r : ℚ)⌉ := Int.ceil_pos.mpr (mul_pos hdc hrq)
    simp only [round_repeats]
    omega
  · simp [round_repeats]

/-- Witness for C3 at `depth_coefficient = 3/2`, `repeats = 2`. -/
theorem round_repeats_spec_witness :
    round_repeats (3/2) 2 = ⌈(3/2 : ℚ) * (2 : ℚ)⌉ ∧
    1 ≤ round_repeats (3/2) 2 ∧
    round_repeats 1 2 = (2 : ℤ) :=
  round_repeats_spec (3/2) 2 (by norm_num) (by norm_num)

/-- C8: `correct_pad` returns per-axis pad tuples
`(correct - adjust, correct)` with `correct = K//2`, `adjust = (1,1)`
for an unknown spatial size and `adjust = 1 - S%2` for a known size
`S`; for a known even size the left pad is `K//2 - 1` and the right pad
is `K//2`. -/
theorem correct_pad_spec (K S : ℕ) :
    correct_pad none (K, K) =
      (((K : ℤ)/2 - 1, (K : ℤ)/2), ((K : ℤ)/2 - 1, (K : ℤ)/2)) ∧
    correct_pad (some (S, S)) (K, K) =
      (((K : ℤ)/2 - (1 - (S : ℤ) % 2), (K : ℤ)/2),
       ((K : ℤ)/2 - (1 - (S : ℤ) % 2), (K : ℤ)/2)) ∧
    (S % 2 = 0 → correct_pad (some (S, S)) (K, K) =
      (((K : ℤ)/2 - 1, (K : ℤ)/2), ((K : ℤ)/2 - 1, (K : ℤ)/2))) := by
  refine ⟨rfl, rfl, fun hS => ?_⟩
  have h : (S : ℤ) % 2 = 0 := by omega
  simp [correct_pad, h]

/-- Witness for C8 at kernel size 3 and known even input size 4: pads
are `(0, 1)` on both axes. -/
theorem correct_pad_spec_witness :
    correct_pad (some (4, 4)) (3, 3) = ((0, 1), (0, 1)) := by
  have h := (correct_pad_spec 3 4).2.2 (by norm_num)
  simpa using h

/-- Truncated floor of a quotient by a natural number agrees with
truncating first and then dividing: bridges the source's
`int(x) // d` with the spec's `floor(x / d)`. -/
theorem toNat_floor_div (x : ℚ) (d : ℕ) :
    (⌊x / (d : ℚ)⌋).toNat = (⌊x⌋).toNat / d := by
  rw [Int.floor_toNat, Int.floor_toNat, Nat.floor_div_nat]

/-- The source rounding agrees with the spec's formula shape. -/
theorem round_filters_eq_claim (f : ℕ) (wc : ℚ) (d : ℕ) :
    round_filters f wc d = round_filters_claim f wc d := by
  simp [round_filters, round_filters_claim, toNat_floor_div]

/-- The result of `round_filters` is never below the divisor. -/
theorem round_filters_ge_divisor (f : ℕ) (wc : ℚ) (d : ℕ) :
    d ≤ round_filters f wc d := by
  simp only [round_filters]
  split <;> omega

/-- The result of `round_filters` is never below 90% of the scaled
filter count. -/
theorem round_filters_ge_ninety (f : ℕ) (wc : ℚ) (d : ℕ)
    (hwc : 0 ≤ wc) (hd : 0 < d) :
    9/10 * ((f : ℚ) * wc) ≤ (round_filters f wc d : ℚ) := by
  simp only [round_filters]
  set s : ℚ := (f : ℚ) * wc with hsdef
  have hs : 0 ≤ s := by positivity
  have hdq : (1 : ℚ) ≤ (d : ℚ) := by exact_mod_cast hd
  set n : ℕ := (⌊s + (d : ℚ) / 2⌋).toNat with hndef
  have hfl : ((n : ℤ) : ℚ) = ((⌊s + (d : ℚ) / 2⌋ : ℤ) : ℚ) := by
    rw [hndef, Int.toNat_of_nonneg (Int.floor_nonneg.mpr (by positivity))]
  have hub : s + (d : ℚ) / 2 - 1 < (n : ℚ) := by
    have h := Int.sub_one_lt_floor (s + (d : ℚ) / 2)
    push_cast at hfl
    linarith
  split
  case isTrue h =>
    have hnd : n + 1 ≤ n / d * d + d := by
      have h2 := Nat.mod_lt n hd
      have h1 := Nat.div_add_mod n d
      calc n + 1 = d * (n / d) + (n % d + 1) := by rw [← Nat.add_assoc, h1]
        _ ≤ d * (n / d) + d := Nat.add_le_add_left h2 _
        _ = n / d * d + d := by rw [Nat.mul_comm]
    have c1 : n / d * d + d ≤ max d (n / d * d) + d :=
      Nat.add_le_add_right (le_max_right d _) d
    have c2 : ((n + 1 : ℕ) : ℚ) ≤ ((max d (n / d * d) + d : ℕ) : ℚ) := by
      exact_mod_cast le_trans hnd c1
    push_cast at c2
    push_cast
    linarith
  case isFalse h =>
    exact le_of_not_lt h

/-- Computation of `round_filters` at `width_coefficient = 1`,
`divisor = 8`, with the condition expressed over naturals. -/
theorem round_filters_one_eight (f : ℕ) :
    round_filters f 1 8 =
      if 10 * (max 8 ((f + 4) / 8 * 8)) < 9 * f then
        max 8 ((f + 4) / 8 * 8) + 8
      else max 8 ((f + 4) / 8 * 8) := by
  simp only [round_filters]
  have h1 : ((f : ℚ) * 1 + ((8 : ℕ) : ℚ) / 2) = ((f + 4 : ℕ) : ℚ) := by
    push_cast
    ring
  rw [h1, Int.floor_natCast, Int.toNat_natCast]
  have hcond : (((max 8 ((f + 4) / 8 * 8) : ℕ) : ℚ) < 9 / 10 * ((f : ℚ) * 1)) ↔
      (10 * (max 8 ((f + 4) / 8 * 8)) < 9 * f) := by
    rw [mul_one,
      show (9 : ℚ) / 10 * (f : ℚ) = ((9 * f : ℕ) : ℚ) / 10 by push_cast; ring,
      lt_div_iff (by norm_num : (0 : ℚ) < 10),
      show ((max 8 ((f + 4) / 8 * 8) : ℕ) : ℚ) * 10 =
        ((10 * max 8 ((f + 4) / 8 * 8) : ℕ) : ℚ) by push_cast; ring,
      Nat.cast_lt]
  simp only [hcond]

/-- When the 90% bump does not fire and `f >= 4`, the `wc = 1, d = 8`
result is the nearest multiple of 8 (ties rounded up). -/
theorem round_filters_nearest (f : ℕ) (h4 : 4 ≤ f)
    (hnb : 9 * f ≤ 10 * ((f + 4) / 8 * 8)) :
    round_filters f 1 8 = (f + 4) / 8 * 8 ∧
    isNearestMultiple 8 f ((f + 4) / 8 * 8) := by
  have he := round_filters_one_eight f
  have hmax : max 8 ((f + 4) / 8 * 8) = (f + 4) / 8 * 8 := by omega
  rw [hmax, if_neg (by omega)] at he
  refine ⟨he, dvd_mul_left 8 ((f + 4) / 8), ?_⟩
  rintro m ⟨t, rfl⟩
  omega

/-- C2 counterexample: the source gives `round_filters 11 1.0 8 = 16`
(the rounded multiple 8 falls below `0.9 * 11`, so the correction adds
another 8), but 16 is not the nearest multiple of 8 to 11 — 8 is
strictly closer.  The claim's "for width_coefficient=1.0 and
depth_divisor=8 it is the nearest multiple of 8 to filters" is
therefore false at `filters = 11`. -/
theorem round_filters_not_nearest_at_11 :
    round_filters 11 1 8 = 16 ∧
    ¬ isNearestMultiple 8 11 (round_filters 11 1 8) := by
  have h : round_filters 11 1 8 = 16 := by
    norm_num [round_filters] <;> simp <;> norm_num
  refine ⟨h, ?_⟩
  rw [h]
  rintro ⟨-, hall⟩
  have h8 := hall 8 ⟨1, rfl⟩
  omega

/-- C2 amended: for `filters > 0`, `width_coefficient > 0`,
`depth_divisor > 0`, `round_filters` computes
`max(depth_divisor, floor((filters*wc + depth_divisor/2)/depth_divisor)
* depth_divisor)` incremented by one `depth_divisor` when below
`0.9 * (filters*wc)`; the result is always `>= depth_divisor` and never
below 90% of the scaled filter count; and for `wc = 1.0`,
`depth_divisor = 8` it is the nearest multiple of 8 to `filters`
provided `filters >= 4` and the 90% correction does not fire (the
counterexample `filters = 11` shows these two provisos are
necessary). -/
theorem round_filters_spec (f : ℕ) (wc : ℚ) (d : ℕ)
    (hf : 0 < f) (hwc : 0 < wc) (hd : 0 < d) :
    round_filters f wc d = round_filters_claim f wc d ∧
    d ≤ round_filters f wc d ∧
    9/10 * ((f : ℚ) * wc) ≤ (round_filters f wc d : ℚ) ∧
    (4 ≤ f → 9 * f ≤ 10 * ((f + 4) / 8 * 8) →
      round_filters f 1 8 = (f + 4) / 8 * 8 ∧
      isNearestMultiple 8 f (round_filters f 1 8)) := by
  refine ⟨round_filters_eq_claim f wc d, round_filters_ge_divisor f wc d,
    round_filters_ge_ninety f wc d (le_of_lt hwc) hd, fun h4 hnb => ?_⟩
  have h := round_filters_nearest f h4 hnb
  exact ⟨h.1, h.1 ▸ h.2⟩

/-- C5: the residual add of the block input onto the projected output
is performed iff `id_skip` is true and `strides == 1` and
`filters_in == filters_out`; inside that branch a whole-block dropout
is applied exactly when `drop_rate > 0`, and when the condition fails
the projected output (`blockBody`) is returned unchanged — no drop, no
add. -/
theorem block_residual_spec (inputs : Tensor) (sp : Option (ℕ × ℕ)) (dr : ℚ)
    (fin fout ks st er : ℕ) (sr : ℚ) (skip : Bool) :
    (block inputs sp dr fin fout ks st er sr skip =
        Tensor.add
          (if 0 < dr then
            Tensor.dropoutWholeBlock dr (blockBody inputs sp fin fout ks st er sr)
          else blockBody inputs sp fin fout ks st er sr) inputs
      ↔ (skip = true ∧ st = 1 ∧ fin = fout)) ∧
    (¬(skip = true ∧ st = 1 ∧ fin = fout) →
      block inputs sp dr fin fout ks st er sr skip =
        blockBody inputs sp fin fout ks st er sr) := by
  by_cases h : (skip = true ∧ st = 1 ∧ fin = fout)
  · exact ⟨iff_of_true (by rw [block, if_pos h]) h, fun hn => absurd h hn⟩
  · refine ⟨iff_of_false ?_ h, fun _ => by rw [block, if_neg h]⟩
    rw [block, if_neg h]
    simp [blockBody]

/-- Witness for C5: with `filters_in = 8 ≠ 16 = filters_out` the block
returns the projected output unchanged. -/
theorem block_residual_spec_witness :
    block .input none 0 8 16 3 1 1 (1/4) true =
      blockBody .input none 8 16 3 1 1 (1/4) :=
  (block_residual_spec .input none 0 8 16 3 1 1 (1/4) true).2 (by simp)

/-- C7 counterexample: at `filters_in = 7`, `se_ratio = 0.25` the
source's reduce conv has `max(1, int(7*0.25)) = max(1, 1) = 1` output
channels (`int` truncates 1.75 to 1), while the claim's
`max(1, round(7*0.25)) = max(1, 2) = 2`.  The claim's "round" is
therefore false at this input. -/
theorem sePhase_reduce_truncates_not_rounds :
    sePhase 7 7 (1/4) .input =
      .mul .input (.conv2d 7 1 .sigmoid
        (.conv2d 1 1 .actFn (.reshape 7 (.gap .input)))) ∧
    max 1 (round ((7 : ℚ) * (1/4))) = 2 ∧ (1 : ℤ) ≠ 2 := by
  refine ⟨?_, by norm_num [round_eq], by norm_num⟩
  have h : se_filters 7 (1/4) = 1 := by
    norm_num [se_filters] <;> simp <;> norm_num
  have hc : (0 : ℚ) < 1/4 ∧ (1/4 : ℚ) ≤ 1 := by norm_num
  rw [sePhase, if_pos hc, h]

/-- C7 amended: the squeeze-and-excitation gate is built iff
`se_ratio` lies in `(0, 1]`; when built, its reduce convolution has
exactly `max(1, floor(filters_in * se_ratio))` output channels (the
source truncates with `int`, it does not round), its expand
convolution restores the current channel count `filters` with a
sigmoid activation and is multiplied element-wise onto the main path;
and inside `blockBody` the gate is applied at the post-expansion
channel count `filters_in * expand_ratio`. -/
theorem sePhase_spec (fin filters : ℕ) (sr : ℚ) (x : Tensor) :
    (0 < sr ∧ sr ≤ 1 →
      sePhase fin filters sr x =
        .mul x (.conv2d filters 1 .sigmoid
          (.conv2d (max 1 (⌊(fin : ℚ) * sr⌋).toNat) 1 .actFn
            (.reshape filters (.gap x))))) ∧
    (¬(0 < sr ∧ sr ≤ 1) → sePhase fin filters sr x = x) ∧
    (∀ inputs sp fout ks st er,
      ∃ y, blockBody inputs sp fin fout ks st er sr =
        .bn (.conv2d fout 1 .actNone (sePhase fin (fin * er) sr y))) := by
  refine ⟨fun h => ?_, fun h => by rw [sePhase, if_neg h], ?_⟩
  · rw [sePhase, if_pos h, se_filters]
  · intro inputs sp fout ks st er
    exact ⟨_, rfl⟩

/-- Witness for C7 at `filters_in = 8`, `se_ratio = 1/4`. -/
theorem sePhase_spec_witness :
    sePhase 8 8 (1/4) .input =
      .mul .input (.conv2d 8 1 .sigmoid
        (.conv2d (max 1 (⌊(8 : ℚ) * (1/4)⌋).toNat) 1 .actFn
          (.reshape 8 (.gap .input)))) :=
  (sePhase_spec 8 8 (1/4) .input).1 (by norm_num)

/-- Witness for C2 at `filters = 32`, `wc = 1`, `divisor = 8`. -/
theorem round_filters_spec_witness :
    round_filters 32 1 8 = round_filters_claim 32 1 8 ∧
    8 ≤ round_filters 32 1 8 ∧
    9/10 * ((32 : ℚ) * 1) ≤ (round_filters 32 1 8 : ℚ) ∧
    (4 ≤ 32 → 9 * 32 ≤ 10 * ((32 + 4) / 8 * 8) →
      round_filters 32 1 8 = (32 + 4) / 8 * 8 ∧
      isNearestMultiple 8 32 (round_filters 32 1 8)) :=
  round_filters_spec 32 1 8 (by norm_num) (by norm_num) (by norm_num)

/-- C6: requesting `imagenet` weights with `include_top` and a class
count other than 1000 fails fast with the head-size error and nothing
is built; a `weights` argument that is neither `imagenet`, nor `None`,
nor an existing file fails with the weights error; and in every other
case validation passes and the builder proceeds to construct the
blocks. -/
theorem validate_spec (wc dc dcr : ℚ) (div : ℕ) (table : List BlockArgs) :
    (∀ nc, nc ≠ 1000 →
      EfficientNet wc dc dcr div table .imagenet true nc =
        .error .invalidNumClasses) ∧
    (∀ top nc,
      EfficientNet wc dc dcr div table (.filePath false) top nc =
        .error .invalidWeights) ∧
    (∀ w top nc, (w = .imagenet ∨ w = .randomInit ∨ w = .filePath true) →
      ¬(w = .imagenet ∧ top = true ∧ nc ≠ 1000) →
      EfficientNet wc dc dcr div table w top nc =
        .ok (buildCalls wc dc dcr div table)) := by
  refine ⟨fun nc h => ?_, fun top nc => ?_, fun w top nc h1 h2 => ?_⟩
  · simp [EfficientNet, validateArgs, h]
  · simp [EfficientNet, validateArgs]
  · rcases h1 with h | h | h <;> subst h
    · have hcond : ¬(top = true ∧ nc ≠ 1000) := by tauto
      simp [EfficientNet, validateArgs, hcond]
    · simp [EfficientNet, validateArgs]
    · simp [EfficientNet, validateArgs]

/-- Witness for C6: with no pretrained weights requested, a 10-class
head passes validation and the blocks are built. -/
theorem validate_spec_witness :
    EfficientNet 1 1 (1/5) 8 DEFAULT_BLOCKS_ARGS .randomInit true 10 =
      .ok (buildCalls 1 1 (1/5) 8 DEFAULT_BLOCKS_ARGS) :=
  (validate_spec 1 1 (1/5) 8 DEFAULT_BLOCKS_ARGS).2.2 .randomInit true 10
    (Or.inr (Or.inl rfl)) (by simp)

/-- C9: the 1000-class head restriction is enforced only for pretrained
weights — with `weights = None` or an existing file path every class
count passes validation, and the head-size error can only arise from
`weights = imagenet` together with `include_top = true` and
`num_classes ≠ 1000`. -/
theorem head_check_only_imagenet (wc dc dcr : ℚ) (div : ℕ)
    (table : List BlockArgs) :
    (∀ top nc, EfficientNet wc dc dcr div table .randomInit top nc =
      .ok (buildCalls wc dc dcr div table)) ∧
    (∀ top nc, EfficientNet wc dc dcr div table (.filePath true) top nc =
      .ok (buildCalls wc dc dcr div table)) ∧
    (∀ w top nc,
      EfficientNet wc dc dcr div table w top nc = .error .invalidNumClasses →
      w = .imagenet ∧ top = true ∧ nc ≠ 1000) := by
  refine ⟨fun top nc => by simp [EfficientNet, validateArgs],
    fun top nc => by simp [EfficientNet, validateArgs],
    fun w top nc h => ?_⟩
  revert h
  simp only [EfficientNet, validateArgs]
  split_ifs with hA hB
  · intro _
    exact hB
  · intro h
    simp at h
  · intro h
    simp at h

/-- Witness for C9: an `invalidNumClasses` error implies the imagenet,
include-top, non-1000-class combination. -/
theorem head_check_only_imagenet_witness :
    WeightsArg.imagenet = WeightsArg.imagenet ∧ true = true ∧ (5 : ℕ) ≠ 1000 :=
  (head_check_only_imagenet 1 1 (1/5) 8 DEFAULT_BLOCKS_ARGS).2.2 .imagenet true 5
    (by simp [EfficientNet, validateArgs])

/-- C10: the builder deep-copies `blocks_args` before the loop's
in-place updates, so the list the caller still holds after the build is
exactly the one passed in, with every stage entry's fields intact;
meanwhile the working copy genuinely is mutated (on the default table
its final stage states differ from the caller's entries — `repeats` is
popped, filter counts rescaled). -/
theorem assembleBody_frame (wc dc dcr : ℚ) (div : ℕ)
    (caller : List BlockArgs) :
    (assembleBody wc dc dcr div caller).2.1 = caller ∧
    (assembleBody 1 1 (1/5) 8 DEFAULT_BLOCKS_ARGS).2.2 ≠
      DEFAULT_BLOCKS_ARGS.map BlockArgs.toState := by
  refine ⟨rfl, ?_⟩
  simp [assembleBody, buildGo, DEFAULT_BLOCKS_ARGS, BlockArgs.toState]

/-- Number of block calls a single stage emits. -/
theorem stageCalls_length (dcr Q : ℚ) (b0 i : ℕ) (a : BlockArgs)
    (fin fout reps : ℕ) :
    (stageCalls dcr Q b0 i a fin fout reps).length = reps := by
  simp [stageCalls]

/-- Drop rate of the `j`-th call a stage emits. -/
theorem stageCalls_drop_rate (dcr Q : ℚ) (b0 i : ℕ) (a : BlockArgs)
    (fin fout reps j : ℕ)
    (hj : j < (stageCalls dcr Q b0 i a fin fout reps).length) :
    ((stageCalls dcr Q b0 i a fin fout reps)[j]).drop_rate =
      dcr * ((b0 + j : ℕ) : ℚ) / Q := by
  simp [stageCalls]

/-- Unfolding equation of the stage loop on a nonempty table. -/
theorem buildGo_cons (dcr Q : ℚ) (rf rr : ℕ → ℕ) (b i : ℕ)
    (a : BlockArgs) (rest : List BlockArgs) :
    (buildGo dcr Q rf rr b i (a :: rest)).1 =
      stageCalls dcr Q b i a (rf a.filters_in) (rf a.filters_out)
        (rr a.repeats) ++
      (buildGo dcr Q rf rr (b + rr a.repeats) (i + 1) rest).1 := rfl

/-- The drop rate of the `k`-th call the stage loop emits, counting
from starting block index `b`, is `dcr * (b + k) / Q`. -/
theorem buildGo_drop_rate (dcr Q : ℚ) (rf rr : ℕ → ℕ)
    (table : List BlockArgs) :
    ∀ b i k (hk : k < (buildGo dcr Q rf rr b i table).1.length),
      ((buildGo dcr Q rf rr b i table).1[k]).drop_rate =
        dcr * ((b + k : ℕ) : ℚ) / Q := by
  induction table with
  | nil =>
    intro b i k hk
    simp [buildGo] at hk
  | cons a rest ih =>
    intro b i k hk
    rw [buildGo_cons] at hk
    simp only [buildGo_cons]
    by_cases hcase : k < rr a.repeats
    · rw [List.getElem_append_left
        (by rw [stageCalls_length]; exact hcase)]
      exact stageCalls_drop_rate dcr Q b i a _ _ _ k
        (by rw [stageCalls_length]; exact hcase)
    · have hlen : (stageCalls dcr Q b i a (rf a.filters_in)
          (rf a.filters_out) (rr a.repeats)).length = rr a.repeats :=
        stageCalls_length dcr Q b i a _ _ _
      rw [List.getElem_append_right (by rw [hlen]; omega)]
      have hk2 : k - (stageCalls dcr Q b i a (rf a.filters_in)
          (rf a.filters_out) (rr a.repeats)).length <
          (buildGo dcr Q rf rr (b + rr a.repeats) (i + 1) rest).1.length := by
        rw [List.length_append] at hk
        omega
      rw [ih (b + rr a.repeats) (i + 1) _ hk2]
      rw [hlen]
      have harith : b + rr a.repeats + (k - rr a.repeats) = b + k := by omega
      rw [harith]

/-- Per-call structural facts, relative to the stage blueprint the call
came from: the loop's stage numbering starts at `i`, `filters_out` is
the scaled blueprint value, the within-stage index is below the scaled
repeat count, the first call of a stage keeps the blueprint strides and
the scaled `filters_in`, and every later call has stride 1 and equal in
and out channels. -/
theorem buildGo_mem (dcr Q : ℚ) (rf rr : ℕ → ℕ) (table : List BlockArgs) :
    ∀ b i c, c ∈ (buildGo dcr Q rf rr b i table).1 →
      c.stage - i < table.length ∧ i ≤ c.stage ∧
      c.filters_out = rf (table.getD (c.stage - i) zeroArgs).filters_out ∧
      c.idxInStage < rr (table.getD (c.stage - i) zeroArgs).repeats ∧
      (c.idxInStage = 0 →
        c.strides = (table.getD (c.stage - i) zeroArgs).strides ∧
        c.filters_in = rf (table.getD (c.stage - i) zeroArgs).filters_in) ∧
      (0 < c.idxInStage → c.strides = 1 ∧ c.filters_in = c.filters_out) := by
  induction table with
  | nil =>
    intro b i c hc
    simp [buildGo] at hc
  | cons a rest ih =>
    intro b i c hc
    rw [buildGo_cons, List.mem_append] at hc
    rcases hc with hmem | hmem
    · obtain ⟨j, hj, rfl⟩ := List.mem_map.mp hmem
      have hjr : j < rr a.repeats := List.mem_range.mp hj
      rcases Nat.eq_zero_or_pos j with hj0 | hj0
      · subst hj0
        simp [hjr]
      · have hjne : ¬ (j = 0) := by omega
        simp [hjr, hj0, hjne]
    · obtain ⟨hs, hle, hfo, hidx, hfirst, hrest⟩ :=
        ih (b + rr a.repeats) (i + 1) c hmem
      have hst : c.stage - i = (c.stage - (i + 1)) + 1 := by omega
      rw [hst]
      refine ⟨by simpa using hs, by omega, ?_, ?_, ?_, hrest⟩
      · simpa using hfo
      · simpa using hidx
      · simpa using hfirst

/-- C1 counterexample: with `depth_coefficient = 2` on a one-stage
table of 2 repeats, 4 blocks are constructed (the post-scaling total),
but the denominator of the drop rates is the pre-scaling sum 2: the
drop rate at global index 1 is `0.2 * 1 / 2 = 1/10`, not the claimed
`0.2 * 1 / 4 = 1/20`.  `total_block_count` is therefore not the sum of
post-scaling repeat counts. -/
theorem buildCalls_drop_rate_counterexample :
    (buildCalls 1 2 (1/5) 8 oneStageTable).map BlockCall.drop_rate =
      [0, 1/10, 1/5, 3/10] ∧
    (buildCalls 1 2 (1/5) 8 oneStageTable).length = 4 ∧
    (1/10 : ℚ) ≠ 1/5 * 1 / 4 := by
  refine ⟨?_, ?_, by norm_num⟩
  · have hr : List.range 4 = [0, 1, 2, 3] := rfl
    norm_num [buildCalls, buildGo, stageCalls, round_repeats, round_filters,
      oneStageTable] <;> simp [hr, Function.comp] <;> norm_num
  · norm_num [buildCalls, buildGo, stageCalls, round_repeats,
      oneStageTable] <;> simp <;> norm_num

/-- C1 amended: each constructed block's `drop_rate` equals
`drop_connect_rate * (global_block_index / raw_total)` where
`raw_total` is the sum of the PRE-scaling `repeats` entries of the
stage table (line 339 sums the raw repeats, without `round_repeats`)
and the global index increments once per constructed block (0-based);
consequently the first block's rate is exactly 0 and the last block's
rate is `drop_connect_rate * (N - 1) / raw_total` where `N` is the
number of constructed blocks. -/
theorem buildCalls_drop_rate_linear (wc dc dcr : ℚ) (div : ℕ)
    (table : List BlockArgs) :
    (∀ k (hk : k < (buildCalls wc dc dcr div table).length),
      ((buildCalls wc dc dcr div table)[k]).drop_rate =
        dcr * (k : ℚ) / (((table.map BlockArgs.repeats).sum : ℕ) : ℚ)) ∧
    (∀ h0 : 0 < (buildCalls wc dc dcr div table).length,
      ((buildCalls wc dc dcr div table).get ⟨0, h0⟩).drop_rate = 0 ∧
      ((buildCalls wc dc dcr div table).get
          ⟨(buildCalls wc dc dcr div table).length - 1, by omega⟩).drop_rate =
        dcr * (((buildCalls wc dc dcr div table).length - 1 : ℕ) : ℚ) /
          (((table.map BlockArgs.repeats).sum : ℕ) : ℚ)) := by
  have key : ∀ k (hk : k < (buildCalls wc dc dcr div table).length),
      ((buildCalls wc dc dcr div table)[k]).drop_rate =
        dcr * (k : ℚ) / (((table.map BlockArgs.repeats).sum : ℕ) : ℚ) := by
    intro k hk
    have h := buildGo_drop_rate dcr
      (((table.map BlockArgs.repeats).sum : ℕ) : ℚ)
      (fun f => round_filters f wc div)
      (fun r => (round_repeats dc r).toNat) table 0 0 k hk
    simp only [Nat.zero_add] at h
    exact h
  refine ⟨key, fun h0 => ⟨?_, ?_⟩⟩
  · have h := key 0 h0
    simpa using h
  · have h := key ((buildCalls wc dc dcr div table).length - 1) (by omega)
    simpa using h

/-- Witness for C1 on the one-stage table with `depth_coefficient = 2`:
the call at global index 1 has drop rate `dcr * 1` over the raw repeat
sum. -/
theorem buildCalls_drop_rate_linear_witness :
    ((buildCalls 1 2 (1/5) 8 oneStageTable).get ⟨1, by
        have h : (buildCalls 1 2 (1/5) 8 oneStageTable).length = 4 := by
          norm_num [buildCalls, buildGo, stageCalls, round_repeats,
            oneStageTable] <;> simp <;> norm_num
        omega⟩).drop_rate =
      (1/5 : ℚ) * ((1 : ℕ) : ℚ) /
        (((oneStageTable.map BlockArgs.repeats).sum : ℕ) : ℚ) := by
  have h := (buildCalls_drop_rate_linear 1 2 (1/5) 8 oneStageTable).1 1 (by
    have h : (buildCalls 1 2 (1/5) 8 oneStageTable).length = 4 := by
      norm_num [buildCalls, buildGo, stageCalls, round_repeats,
        oneStageTable] <;> simp <;> norm_num
    omega)
  simpa using h

/-- C4 counterexample: on a one-stage table with `filters_in = 11` and
`width_coefficient = 1.0`, the first (and only) block of the stage is
constructed with `filters_in = round_filters 11 1 8 = 16`, not the
blueprint's unscaled 11: the first block of a stage does NOT use the
unscaled `filters_in`. -/
theorem buildCalls_first_block_scaled :
    (buildCalls 1 1 (1/5) 8 stageTable11).map BlockCall.filters_in = [16] ∧
    stageTable11.map BlockArgs.filters_in = [11] ∧ (16 : ℕ) ≠ 11 := by
  refine ⟨?_, by simp [stageTable11], by norm_num⟩
  norm_num [buildCalls, buildGo, stageCalls, round_repeats, round_filters,
    stageTable11, List.range_succ] <;> simp <;> norm_num

/-- C4 amended: in the body loop, the first block of each stage uses
the blueprint's `strides` and the width-scaled (`round_filters`)
`filters_in`, and every subsequent block of the stage is constructed
with `strides = 1` and `filters_in = filters_out`, so the channel
count is invariant across the blocks of a stage after the first. -/
theorem buildCalls_stage_structure (wc dc dcr : ℚ) (div : ℕ)
    (table : List BlockArgs) :
    ∀ c ∈ buildCalls wc dc dcr div table,
      c.stage < table.length ∧
      (c.idxInStage = 0 →
        c.strides = (table.getD c.stage zeroArgs).strides ∧
        c.filters_in =
          round_filters (table.getD c.stage zeroArgs).filters_in wc div) ∧
      (0 < c.idxInStage → c.strides = 1 ∧ c.filters_in = c.filters_out) ∧
      c.filters_out =
        round_filters (table.getD c.stage zeroArgs).filters_out wc div := by
  intro c hc
  have hc' : c ∈ (buildGo (dcr)
      (((table.map BlockArgs.repeats).sum : ℕ) : ℚ)
      (fun f => round_filters f wc div)
      (fun r => (round_repeats dc r).toNat) 0 0 table).1 := hc
  obtain ⟨hs, -, hfo, -, hfirst, hrest⟩ :=
    buildGo_mem dcr (((table.map BlockArgs.repeats).sum : ℕ) : ℚ)
      (fun f => round_filters f wc div)
      (fun r => (round_repeats dc r).toNat) table 0 0 c hc'
  simp only [Nat.sub_zero] at hs hfo hfirst
  exact ⟨hs, hfirst, hrest, hfo⟩

/-- Witness for C4: the first block of the one-stage table keeps the
blueprint stride and takes the scaled input filter count. -/
theorem buildCalls_stage_structure_witness :
    (BlockCall.mk 0 8 8 3 1 1 (1/4) true 0 0).stage < oneStageTable.length ∧
    ((BlockCall.mk 0 8 8 3 1 1 (1/4) true 0 0).idxInStage = 0 →
      (BlockCall.mk 0 8 8 3 1 1 (1/4) true 0 0).strides =
        (oneStageTable.getD 0 zeroArgs).strides ∧
      (BlockCall.mk 0 8 8 3 1 1 (1/4) true 0 0).filters_in =
        round_filters (oneStageTable.getD 0 zeroArgs).filters_in 1 8) ∧
    (0 < (BlockCall.mk 0 8 8 3 1 1 (1/4) true 0 0).idxInStage →
      (BlockCall.mk 0 8 8 3 1 1 (1/4) true 0 0).strides = 1 ∧
      (BlockCall.mk 0 8 8 3 1 1 (1/4) true 0 0).filters_in =
        (BlockCall.mk 0 8 8 3 1 1 (1/4) true 0 0).filters_out) ∧
    (BlockCall.mk 0 8 8 3 1 1 (1/4) true 0 0).filters_out =
      round_filters (oneStageTable.getD 0 zeroArgs).filters_out 1 8 :=
  buildCalls_stage_structure 1 1 (1/5) 8 oneStageTable
    (BlockCall.mk 0 8 8 3 1 1 (1/4) true 0 0) (by
      norm_num [buildCalls, buildGo, stageCalls, round_repeats, round_filters,
        oneStageTable, List.range_succ] <;> simp <;> norm_num)

end EffNet
